import Mathlib

/-!
A shallow embedding of the cart logic of `src/js/app.js` (the Sweet Kitty
Bakery page script).  JavaScript numbers are modelled by `Rat` (all the
arithmetic the cart performs — sums and products of parsed prices and
quantities — is exact on the inputs the spec discusses), strings by
`String`, and the insertion-ordered JavaScript `Map` backing the cart by a
`List` of entries together with explicit first-match get/set/delete/modify
operations that mirror `Map` semantics (set replaces in place when the key
is present and appends otherwise).

`localStorage` plus `JSON.stringify`/`JSON.parse` are platform built-ins,
not code of this repository; the persisted payload is therefore modelled at
two levels: a typed level (`Option (List Registro)` — the key is absent, or
holds the JSON encoding of a list of well-formed records), used for the
claims that quantify over well-formed persisted state, and a dynamic level
(`StoredRaw` / `JVal`) that models arbitrary parse outcomes, property
access on arbitrary JavaScript values (throwing on `null`/`undefined`), and
`for...of` iterability, used for the corrupted-payload claim.
-/

/-! ## Money parsing (`parsePrice`, app.js lines 18-22) -/

/-- One character survives the cleaning step of `parsePrice`
(`.replace(/[^\d.,]/g, "")` keeps digits, dots and commas). -/
def isPriceChar (c : Char) : Bool :=
  c.isDigit || c == '.' || c == ','

/-- `.replace(",", ".")` with a string pattern substitutes only the first
occurrence: the first comma becomes a dot, later commas stay in place. -/
def replaceFirstComma : List Char → List Char
  | [] => []
  | c :: rest => if c == ',' then '.' :: rest else c :: replaceFirstComma rest

/-- Value of a digit string read left to right (used for the integer and
fraction parts accepted by `parseFloat`). -/
def digitsToNat (cs : List Char) : Nat :=
  cs.foldl (fun n c => 10 * n + (c.toNat - 48)) 0

/-- The fraction digits `parseFloat` reads after the integer part: present
only when the text remaining after the integer digits starts with a dot. -/
def parseFloatFrac : List Char → List Char
  | [] => []
  | c :: r => if c = '.' then r.takeWhile Char.isDigit else []

/-- `parseFloat` on a string of digits, dots and commas (the only
characters that survive cleaning; signs, exponents and whitespace are
already gone): the longest prefix of the form `digits[.digits]` is read,
`none` when that prefix is empty (JavaScript returns `NaN` there). -/
def parseFloatJS (cs : List Char) : Option Rat :=
  if (cs.takeWhile Char.isDigit).isEmpty
      && (parseFloatFrac (cs.dropWhile Char.isDigit)).isEmpty then none
  else
    some ((digitsToNat (cs.takeWhile Char.isDigit) : Rat)
      + (digitsToNat (parseFloatFrac (cs.dropWhile Char.isDigit)) : Rat)
        / ((10 : Rat) ^ (parseFloatFrac (cs.dropWhile Char.isDigit)).length))

/-- `parsePrice(priceStr)` (app.js lines 18-22).  The argument domain is
`Option String`: `none` models `null`/`undefined` (falsy, so the guard
`if (!priceStr) return 0` fires); the empty string is the falsy string.
`Number(parseFloat(cleaned)) || 0` maps `NaN` to `0` and leaves every
other parse result unchanged (`0 || 0` is `0`). -/
def parsePrice : Option String → Rat
  | none => 0
  | some s =>
    if s = "" then 0
    else
      match parseFloatJS (replaceFirstComma (s.data.filter isPriceChar)) with
      | none => 0
      | some q => q

/-! ## Product entity (`Producto`, app.js lines 31-43) -/

/-- The `Producto` class: private `#id` exposed through `getId`, public
`nombre`, `precio`, `categoria`, `cantidad` fields. -/
structure Producto where
  id : String
  nombre : String
  precio : Rat
  categoria : String
  cantidad : Rat
deriving DecidableEq

/-- `getId()` — accessor for the private `#id` field. -/
def Producto.getId (p : Producto) : String := p.id

/-- `new Producto({id, nombre, precio, categoria})` — the constructor
always initialises `cantidad` to `1`. -/
def Producto.new (id nombre : String) (precio : Rat) (categoria : String) : Producto :=
  ⟨id, nombre, precio, categoria, 1⟩

/-! ## JavaScript `Map` operations, insertion-ordered list model -/

section MapModel

variable {α : Type} {κ : Type} [DecidableEq κ]

/-- `Map.get(k)` — first (and, under the `Map` key-uniqueness invariant,
only) entry whose key is `k`. -/
def mapGet (key : α → κ) : List α → κ → Option α
  | [], _ => none
  | a :: rest, k => if key a = k then some a else mapGet key rest k

/-- `Map.has(k)`. -/
def mapHas (key : α → κ) (items : List α) (k : κ) : Bool :=
  (mapGet key items k).isSome

/-- `Map.set(k, v)` — replaces in place when `k` is present, appends
otherwise (insertion order preserved). -/
def mapSet (key : α → κ) : List α → κ → α → List α
  | [], _, v => [v]
  | a :: rest, k, v => if key a = k then v :: rest else a :: mapSet key rest k v

/-- `Map.delete(k)` — removes the entry with key `k` (first match in the
list model). -/
def mapDelete (key : α → κ) : List α → κ → List α
  | [], _ => []
  | a :: rest, k => if key a = k then rest else a :: mapDelete key rest k

/-- In-place mutation of the object returned by `Map.get(k)` (e.g.
`items.get(id).cantidad += 1`): rewrite the entry with key `k`. -/
def mapModify (key : α → κ) (f : α → α) : List α → κ → List α
  | [], _ => []
  | a :: rest, k => if key a = k then f a :: rest else a :: mapModify key f rest k

end MapModel

/-! ## Persisted record (`saveToStorage` serialises these, app.js 83-85) -/

/-- One element of the JSON array stored under the `skb_carrito` key:
`{id, nombre, precio, categoria, cantidad}`. -/
structure Registro where
  id : String
  nombre : String
  precio : Rat
  categoria : String
  cantidad : Rat
deriving DecidableEq

/-- The record `saveToStorage` writes for one cart entry. -/
def Producto.toRecord (p : Producto) : Registro :=
  ⟨p.getId, p.nombre, p.precio, p.categoria, p.cantidad⟩

/-- The `Producto` that `loadFromStorage` rebuilds from one record:
`new Producto({id: o.id, nombre: o.nombre, precio: o.precio,
categoria: o.categoria})` followed by `p.cantidad = o.cantidad`. -/
def Registro.toProducto (o : Registro) : Producto :=
  ⟨o.id, o.nombre, o.precio, o.categoria, o.cantidad⟩

/-! ## Cart store (`Carrito`, app.js lines 48-99) -/

/-- The `Carrito` class: the private `#items` map, keyed by product id. -/
structure Carrito where
  items : List Producto
deriving DecidableEq

/-- `add(producto)` (lines 54-62): increment the existing entry's
`cantidad` when the id is already present, else `set` the product. -/
def Carrito.add (c : Carrito) (producto : Producto) : Carrito :=
  if mapHas Producto.getId c.items producto.getId then
    ⟨mapModify Producto.getId (fun p => { p with cantidad := p.cantidad + 1 })
      c.items producto.getId⟩
  else
    ⟨mapSet Producto.getId c.items producto.getId producto⟩

/-- `remove(id)` (line 63). -/
def Carrito.remove (c : Carrito) (id : String) : Carrito :=
  ⟨mapDelete Producto.getId c.items id⟩

/-- `updateQty(id, qty)` (lines 64-70): return early when the id is
absent; otherwise set `cantidad` to `qty` and delete the entry when the
resulting `cantidad` is ≤ 0. -/
def Carrito.updateQty (c : Carrito) (id : String) (qty : Rat) : Carrito :=
  if mapHas Producto.getId c.items id = false then c
  else if qty ≤ 0 then
    ⟨mapDelete Producto.getId
      (mapModify Producto.getId (fun p => { p with cantidad := qty }) c.items id) id⟩
  else
    ⟨mapModify Producto.getId (fun p => { p with cantidad := qty }) c.items id⟩

/-- `clear()` (line 71). -/
def Carrito.clear (_ : Carrito) : Carrito := ⟨[]⟩

/-- `getItemsArray()` (line 72) — `Array.from` of the map's values in
insertion order. -/
def Carrito.getItemsArray (c : Carrito) : List Producto := c.items

/-- `getTotal()` (lines 73-77) — `Σ precio × cantidad`. -/
def Carrito.getTotal (c : Carrito) : Rat :=
  (c.items.map fun p => p.precio * p.cantidad).sum

/-- `getCount()` (lines 78-80) — `Σ cantidad`. -/
def Carrito.getCount (c : Carrito) : Rat :=
  (c.items.map fun p => p.cantidad).sum

/-- The array of records `saveToStorage` (lines 81-88) encodes under the
`skb_carrito` key. -/
def Carrito.serialize (c : Carrito) : List Registro :=
  c.getItemsArray.map Producto.toRecord

/-- `loadFromStorage()` (lines 89-98) on a well-formed payload: `none`
models an absent key (or the falsy empty string — `if (!raw) return`),
`some arr` a payload that parses to an array of well-formed records; each
record is rebuilt into a `Producto` and `set` into the map. -/
def Carrito.loadFromStorage (c : Carrito) (raw : Option (List Registro)) : Carrito :=
  match raw with
  | none => c
  | some arr =>
    ⟨arr.foldl (fun items o => mapSet Producto.getId items o.id o.toProducto) c.items⟩

/-! ## Lemmas about the `Map` model -/

section MapLemmas

variable {α : Type} {κ : Type} [DecidableEq κ] {key : α → κ} {f : α → α}

theorem mapGet_eq_none_of_not_mem {items : List α} {k : κ} (h : k ∉ items.map key) :
    mapGet key items k = none := by
  induction items with
  | nil => rfl
  | cons a rest ih =>
    simp only [List.map_cons, List.mem_cons, not_or] at h
    have hne : ¬ key a = k := fun hk => h.1 hk.symm
    simp only [mapGet, if_neg hne]
    exact ih h.2

theorem mapGet_mem {items : List α} {k : κ} {a : α} (h : mapGet key items k = some a) :
    a ∈ items ∧ key a = k := by
  induction items with
  | nil => simp [mapGet] at h
  | cons b rest ih =>
    simp only [mapGet] at h
    split at h
    · cases h
      exact ⟨List.mem_cons_self _ _, by assumption⟩
    · rcases ih h with ⟨h1, h2⟩
      exact ⟨List.mem_cons_of_mem _ h1, h2⟩

theorem mapHas_eq_false_iff {items : List α} {k : κ} :
    mapHas key items k = false ↔ k ∉ items.map key := by
  constructor
  · intro h hk
    induction items with
    | nil => simp at hk
    | cons a rest ih =>
      simp only [mapHas, mapGet] at h
      split at h
      · simp at h
      · simp only [List.map_cons, List.mem_cons] at hk
        rcases hk with hk | hk
        · exact absurd hk.symm (by assumption)
        · exact ih h hk
  · intro h
    simp only [mapHas, mapGet_eq_none_of_not_mem h]
    rfl

theorem mapHas_eq_true_iff {items : List α} {k : κ} :
    mapHas key items k = true ↔ k ∈ items.map key := by
  constructor
  · intro h
    by_contra hk
    simp only [mapHas, mapGet_eq_none_of_not_mem hk] at h
    simp at h
  · intro h
    by_contra hfalse
    have hf : mapHas key items k = false := by
      revert hfalse
      cases mapHas key items k <;> simp
    exact mapHas_eq_false_iff.mp hf h

theorem mapSet_of_not_mem {items : List α} {k : κ} {v : α} (h : k ∉ items.map key) :
    mapSet key items k v = items ++ [v] := by
  induction items with
  | nil => rfl
  | cons a rest ih =>
    simp only [List.map_cons, List.mem_cons, not_or] at h
    have hne : ¬ key a = k := fun hk => h.1 hk.symm
    simp only [mapSet, if_neg hne, List.cons_append, ih h.2]

theorem mem_mapSet {items : List α} {k : κ} {v a : α} (h : a ∈ mapSet key items k v) :
    a ∈ items ∨ a = v := by
  induction items with
  | nil => simpa [mapSet] using h
  | cons b rest ih =>
    simp only [mapSet] at h
    split at h
    · rcases List.mem_cons.mp h with h | h
      · exact Or.inr h
      · exact Or.inl (List.mem_cons_of_mem _ h)
    · rcases List.mem_cons.mp h with h | h
      · exact Or.inl (h ▸ List.mem_cons_self _ _)
      · rcases ih h with h | h
        · exact Or.inl (List.mem_cons_of_mem _ h)
        · exact Or.inr h

theorem mapSet_map_key (key : α → κ) (items : List α) {k : κ} {v : α}
    (hkv : key v = k) :
    (mapSet key items k v).map key = items.map key ∨
      (mapSet key items k v).map key = items.map key ++ [k] := by
  induction items with
  | nil => simp [mapSet, hkv]
  | cons a rest ih =>
    simp only [mapSet]
    split
    · left
      simp_all
    · rcases ih with h | h
      · left
        simp [h]
      · right
        simp [h]

theorem nodup_mapSet_map_key {items : List α} {k : κ} {v : α} (hkv : key v = k)
    (h : (items.map key).Nodup) : ((mapSet key items k v).map key).Nodup := by
  induction items with
  | nil => simp [mapSet]
  | cons a rest ih =>
    simp only [List.map_cons, List.nodup_cons] at h
    simp only [mapSet]
    split
    · simp only [List.map_cons, List.nodup_cons, hkv]
      have hk : key a = k := by assumption
      exact ⟨hk ▸ h.1, h.2⟩
    · simp only [List.map_cons, List.nodup_cons]
      refine ⟨fun hmem => ?_, ih h.2⟩
      rcases mapSet_map_key key rest hkv with he | he
      · exact h.1 (he ▸ hmem)
      · rw [he] at hmem
        rcases List.mem_append.mp hmem with hmem | hmem
        · exact h.1 hmem
        · simp only [List.mem_singleton] at hmem
          exact (by assumption : ¬ key a = k) hmem

theorem mapDelete_sublist (key : α → κ) (items : List α) (k : κ) :
    List.Sublist (mapDelete key items k) items := by
  induction items with
  | nil => exact List.Sublist.refl _
  | cons a rest ih =>
    simp only [mapDelete]
    split
    · exact List.sublist_cons_self _ _
    · exact List.Sublist.cons₂ _ ih

theorem mem_mapDelete {items : List α} {k : κ} {a : α} (h : a ∈ mapDelete key items k) :
    a ∈ items :=
  (mapDelete_sublist key items k).subset h

theorem mapGet_mapDelete_self {items : List α} {k : κ}
    (h : (items.map key).Nodup) : mapGet key (mapDelete key items k) k = none := by
  induction items with
  | nil => rfl
  | cons a rest ih =>
    simp only [List.map_cons, List.nodup_cons] at h
    simp only [mapDelete]
    split
    · have hk : key a = k := by assumption
      exact mapGet_eq_none_of_not_mem (hk ▸ h.1)
    · simp only [mapGet, if_neg (by assumption : ¬ key a = k)]
      exact ih h.2

theorem mapModify_map_key (key : α → κ) (f : α → α) (hf : ∀ a, key (f a) = key a)
    (items : List α) (k : κ) :
    (mapModify key f items k).map key = items.map key := by
  induction items with
  | nil => rfl
  | cons a rest ih =>
    simp only [mapModify]
    split
    · simp [hf]
    · simp [ih]

theorem mem_mapModify {items : List α} {k : κ} {a : α} (h : a ∈ mapModify key f items k) :
    a ∈ items ∨ ∃ b ∈ items, a = f b := by
  induction items with
  | nil => simp [mapModify] at h
  | cons b rest ih =>
    simp only [mapModify] at h
    split at h
    · rcases List.mem_cons.mp h with h | h
      · exact Or.inr ⟨b, List.mem_cons_self _ _, h⟩
      · exact Or.inl (List.mem_cons_of_mem _ h)
    · rcases List.mem_cons.mp h with h | h
      · exact Or.inl (h ▸ List.mem_cons_self _ _)
      · rcases ih h with h | hex
        · exact Or.inl (List.mem_cons_of_mem _ h)
        · rcases hex with ⟨c, hc, he⟩
          exact Or.inr ⟨c, List.mem_cons_of_mem _ hc, he⟩

theorem mapGet_mapModify_self (key : α → κ) (f : α → α) (hf : ∀ a, key (f a) = key a)
    (items : List α) (k : κ) :
    mapGet key (mapModify key f items k) k = (mapGet key items k).map f := by
  induction items with
  | nil => rfl
  | cons a rest ih =>
    simp only [mapModify, mapGet]
    split
    · simp only [mapGet, hf, if_pos (by assumption : key a = k)]
      rfl
    · simp only [mapGet, hf, if_neg (by assumption : ¬ key a = k)]
      exact ih

theorem mapDelete_mapModify (key : α → κ) (f : α → α) (hf : ∀ a, key (f a) = key a)
    (items : List α) (k : κ) :
    mapDelete key (mapModify key f items k) k = mapDelete key items k := by
  induction items with
  | nil => rfl
  | cons a rest ih =>
    simp only [mapModify, mapDelete]
    split
    · simp only [mapDelete, hf, if_pos (by assumption : key a = k)]
    · simp only [mapDelete, hf, if_neg (by assumption : ¬ key a = k)]
      rw [ih]

theorem mapGet_append_singleton_of_not_mem {items : List α} {k : κ} {v : α}
    (h : k ∉ items.map key) (hkv : key v = k) :
    mapGet key (items ++ [v]) k = some v := by
  induction items with
  | nil => simp [mapGet, hkv]
  | cons a rest ih =>
    simp only [List.map_cons, List.mem_cons, not_or] at h
    have hne : ¬ key a = k := fun hk => h.1 hk.symm
    simp only [List.cons_append, mapGet, if_neg hne]
    exact ih h.2

end MapLemmas

/-! ## Persistence effect model (`saveToStorage`, app.js lines 81-88) -/

/-- `saveToStorage()` with the storage-write outcome made explicit:
`writeOk = true` models a successful `localStorage.setItem`, replacing the
stored payload with the serialisation of the current items;
`writeOk = false` models `setItem` throwing (quota exceeded, storage
disabled) — the exception is caught and logged (`console.error`), so the
call returns normally and the stored payload is unchanged. -/
def Carrito.saveToStorage (c : Carrito) (storage : Option (List Registro))
    (writeOk : Bool) : Option (List Registro) :=
  if writeOk then some c.serialize else storage

/-- The four mutating cart operations. -/
inductive CartOp where
  | add (producto : Producto)
  | remove (id : String)
  | updateQty (id : String) (qty : Rat)
  | clear

/-- In-memory effect of one mutation. -/
def applyOp (c : Carrito) : CartOp → Carrito
  | .add p => c.add p
  | .remove id => c.remove id
  | .updateQty id q => c.updateQty id q
  | .clear => Carrito.clear c

/-- In-memory cart plus persisted payload. -/
structure AppState where
  carrito : Carrito
  storage : Option (List Registro)
deriving DecidableEq

/-- One mutation as the source performs it: mutate `#items` first, then
call `saveToStorage`, whose `try`/`catch` swallows a write failure. -/
def runOp (s : AppState) (op : CartOp) (writeOk : Bool) : AppState :=
  let c := applyOp s.carrito op
  ⟨c, c.saveToStorage s.storage writeOk⟩

/-! ## Reachable cart states -/

/-- Cart states reachable through the public interface as the page drives
it: the cart starts empty (`new Carrito()` with nothing persisted yet),
products are added freshly constructed
(`agregarProductoAlCarritoDesdeBoton` always passes `new Producto(...)`,
whose `cantidad` is 1), `updateQty` receives integer quantities (the spec
types `quantity` as an integer, and the widget calls it with
`cantidad ± 1`), and hydration reads a payload that `saveToStorage` wrote
for a reachable cart. -/
inductive Reachable : Carrito → Prop
  | init : Reachable ⟨[]⟩
  | add (c : Carrito) (id nombre : String) (precio : Rat) (categoria : String) :
      Reachable c → Reachable (c.add (Producto.new id nombre precio categoria))
  | remove (c : Carrito) (id : String) : Reachable c → Reachable (c.remove id)
  | updateQty (c : Carrito) (id : String) (q : Int) :
      Reachable c → Reachable (c.updateQty id (q : Rat))
  | clear (c : Carrito) : Reachable c → Reachable (Carrito.clear c)
  | reload (c cInit : Carrito) : Reachable c → Reachable cInit →
      Reachable (cInit.loadFromStorage (some c.serialize))

/-- A cart entry carries an integer quantity of at least one. -/
def QtyOk (p : Producto) : Prop := ∃ n : Int, p.cantidad = (n : Rat) ∧ 1 ≤ n

/-- Well-formedness of a cart state: integral quantities ≥ 1 and
`Map`-style unique ids. -/
def CartWf (c : Carrito) : Prop :=
  (∀ p ∈ c.items, QtyOk p) ∧ (c.items.map Producto.getId).Nodup

/-! ## Dynamic model of hydration (`loadFromStorage`, arbitrary payloads) -/

/-- Parsed JavaScript values (`JSON.parse` output plus `undefined`). -/
inductive JVal where
  | undefined
  | jnull
  | jbool (b : Bool)
  | jnum (q : Rat)
  | jstr (s : String)
  | jarr (elems : List JVal)
  | jobj (fields : List (String × JVal))

/-- `SameValueZero` key comparison as `Map.set` uses it, restricted to
primitive values: parsed objects and arrays are fresh references, so two
of them never compare equal as keys. -/
def JVal.primEq : JVal → JVal → Bool
  | .undefined, .undefined => true
  | .jnull, .jnull => true
  | .jbool a, .jbool b => a == b
  | .jnum a, .jnum b => a == b
  | .jstr a, .jstr b => a == b
  | _, _ => false

/-- `o.field`: `none` models the `TypeError` thrown by property access on
`null`/`undefined`; on the other non-objects the access yields `undefined`
(no record field name is a built-in property of numbers, booleans,
strings or arrays). -/
def JVal.getField : JVal → String → Option JVal
  | .jnull, _ => none
  | .undefined, _ => none
  | .jobj fields, k =>
      some (((fields.find? fun kv => kv.1 == k).map fun kv => kv.2).getD .undefined)
  | _, _ => some .undefined

/-- `for...of` iterability: arrays iterate their elements, strings their
characters; everything else throws a `TypeError` (`none`). -/
def JVal.iterate : JVal → Option (List JVal)
  | .jarr elems => some elems
  | .jstr s => some (s.data.map fun ch => JVal.jstr (String.mk [ch]))
  | _ => none

/-- A cart entry as dynamic hydration builds it: the five fields hold
arbitrary JavaScript values. -/
structure ProductoD where
  id : JVal
  nombre : JVal
  precio : JVal
  categoria : JVal
  cantidad : JVal

/-- `Map.set(p.getId(), p)` in the dynamic model. -/
def mapSetD : List ProductoD → JVal → ProductoD → List ProductoD
  | [], _, v => [v]
  | a :: rest, k, v => if JVal.primEq a.id k then v :: rest else a :: mapSetD rest k v

/-- The hydration loop of `loadFromStorage`: for each element, read the
four constructor fields and `cantidad` (`o.id` throws on
`null`/`undefined`, aborting the loop — the `catch` keeps whatever was
already inserted), apply the constructor's default for `categoria`, and
`set` the rebuilt entry under `p.getId()`. -/
def hydrateLoop : List ProductoD → List JVal → List ProductoD
  | items, [] => items
  | items, o :: rest =>
    match o.getField "id", o.getField "nombre", o.getField "precio",
        o.getField "categoria", o.getField "cantidad" with
    | some i, some n, some pr, some cat, some q =>
      let categoria := match cat with
        | .undefined => JVal.jstr "general"
        | v => v
      hydrateLoop (mapSetD items i ⟨i, n, pr, categoria, q⟩) rest
    | _, _, _, _, _ => items

/-- The persisted payload as `loadFromStorage` sees it: the key is absent
(or holds the falsy empty string), the stored string makes `JSON.parse`
throw (caught), or it parses to some JavaScript value. -/
inductive StoredRaw where
  | absent
  | malformed
  | parsed (v : JVal)

/-- Dynamic cart: `#items` holding dynamically-typed entries. -/
structure CarritoD where
  items : List ProductoD

/-- `loadFromStorage()` over an arbitrary payload: early return on an
absent key, `catch` on a parse failure or on a non-iterable parse result,
otherwise the hydration loop. -/
def CarritoD.loadFromStorage (c : CarritoD) (raw : StoredRaw) : CarritoD :=
  match raw with
  | .absent => c
  | .malformed => c
  | .parsed v =>
    match v.iterate with
    | none => c
    | some os => ⟨hydrateLoop c.items os⟩

/-! ## Cart-level lemmas -/

theorem Producto.getId_new (id nombre : String) (precio : Rat) (categoria : String) :
    (Producto.new id nombre precio categoria).getId = id := rfl

theorem toRecord_toProducto (p : Producto) : p.toRecord.toProducto = p := rfl

theorem QtyOk.one_le {p : Producto} (h : QtyOk p) : 1 ≤ p.cantidad := by
  rcases h with ⟨n, he, hn⟩
  rw [he]
  exact_mod_cast hn

theorem QtyOk.add_one {p : Producto} (h : QtyOk p) :
    QtyOk { p with cantidad := p.cantidad + 1 } := by
  rcases h with ⟨n, he, hn⟩
  refine ⟨n + 1, ?_, by omega⟩
  show p.cantidad + 1 = ((n + 1 : Int) : Rat)
  rw [he]
  push_cast
  ring

theorem cartWf_add {c : Carrito} (h : CartWf c) {producto : Producto}
    (hq : QtyOk producto) : CartWf (c.add producto) := by
  obtain ⟨hQ, hN⟩ := h
  unfold Carrito.add
  split
  · refine ⟨?_, ?_⟩
    · intro p hp
      rcases mem_mapModify hp with hp | hb
      · exact hQ p hp
      · rcases hb with ⟨b, hb, he⟩
        subst he
        exact (hQ b hb).add_one
    · show ((mapModify Producto.getId
          (fun p => { p with cantidad := p.cantidad + 1 }) c.items
          producto.getId).map Producto.getId).Nodup
      rw [mapModify_map_key Producto.getId (fun p : Producto => { p with cantidad := p.cantidad + 1 }) fun a => rfl]
      exact hN
  · refine ⟨?_, ?_⟩
    · intro p hp
      rcases mem_mapSet hp with hp | he
      · exact hQ p hp
      · subst he
        exact hq
    · exact nodup_mapSet_map_key rfl hN

theorem cartWf_remove {c : Carrito} (h : CartWf c) (id : String) :
    CartWf (c.remove id) := by
  obtain ⟨hQ, hN⟩ := h
  refine ⟨?_, ?_⟩
  · intro p hp
    exact hQ p (mem_mapDelete hp)
  · exact List.Nodup.sublist ((mapDelete_sublist _ _ _).map _) hN

theorem cartWf_updateQty {c : Carrito} (h : CartWf c) (id : String) (q : Int) :
    CartWf (c.updateQty id (q : Rat)) := by
  obtain ⟨hQ, hN⟩ := h
  unfold Carrito.updateQty
  split
  · exact ⟨hQ, hN⟩
  · split
    · rw [mapDelete_mapModify Producto.getId (fun p : Producto => { p with cantidad := (q : Rat) }) fun a => rfl]
      refine ⟨?_, ?_⟩
      · intro p hp
        exact hQ p (mem_mapDelete hp)
      · exact List.Nodup.sublist ((mapDelete_sublist _ _ _).map _) hN
    · have hq : (1 : Int) ≤ q := by
        rename_i hpos
        by_contra hq
        exact hpos (by exact_mod_cast (by omega : q ≤ 0))
      refine ⟨?_, ?_⟩
      · intro p hp
        rcases mem_mapModify hp with hp | hb
        · exact hQ p hp
        · rcases hb with ⟨b, hb, he⟩
          subst he
          exact ⟨q, rfl, hq⟩
      · show ((mapModify Producto.getId
            (fun p => { p with cantidad := (q : Rat) }) c.items id).map
            Producto.getId).Nodup
        rw [mapModify_map_key Producto.getId (fun p : Producto => { p with cantidad := (q : Rat) }) fun a => rfl]
        exact hN

theorem cartWf_load_fold (arr : List Registro) (init : List Producto)
    (h1 : ∀ p ∈ init, QtyOk p) (h2 : (init.map Producto.getId).Nodup)
    (h3 : ∀ o ∈ arr, QtyOk o.toProducto) :
    (∀ p ∈ arr.foldl (fun items o => mapSet Producto.getId items o.id o.toProducto) init,
        QtyOk p) ∧
      ((arr.foldl (fun items o => mapSet Producto.getId items o.id o.toProducto)
          init).map Producto.getId).Nodup := by
  induction arr generalizing init with
  | nil => exact ⟨h1, h2⟩
  | cons o rest ih =>
    simp only [List.foldl_cons]
    apply ih
    · intro p hp
      rcases mem_mapSet hp with hp | he
      · exact h1 p hp
      · subst he
        exact h3 o (List.mem_cons_self _ _)
    · exact nodup_mapSet_map_key rfl h2
    · intro o2 ho2
      exact h3 o2 (List.mem_cons_of_mem _ ho2)

theorem cartWf_loadFromStorage {cInit : Carrito} (h : CartWf cInit)
    {arr : List Registro} (h3 : ∀ o ∈ arr, QtyOk o.toProducto) :
    CartWf (cInit.loadFromStorage (some arr)) :=
  cartWf_load_fold arr cInit.items h.1 h.2 h3

theorem reachable_cartWf {c : Carrito} (h : Reachable c) : CartWf c := by
  induction h with
  | init => exact ⟨by simp, by simp⟩
  | add c id nombre precio categoria _ ih =>
    exact cartWf_add ih ⟨1, rfl, le_refl 1⟩
  | remove c id _ ih => exact cartWf_remove ih id
  | updateQty c id q _ ih => exact cartWf_updateQty ih id q
  | clear c _ _ => exact ⟨by simp [Carrito.clear], by simp [Carrito.clear]⟩
  | reload c cInit _ _ ih1 ih2 =>
    refine cartWf_loadFromStorage ih2 ?_
    intro o ho
    simp only [Carrito.serialize, Carrito.getItemsArray, List.mem_map] at ho
    rcases ho with ⟨p, hp, he⟩
    subst he
    rw [toRecord_toProducto]
    exact ih1.1 p hp

theorem add_get_absent {c : Carrito} {p0 : Producto}
    (h : mapHas Producto.getId c.items p0.getId = false) :
    mapGet Producto.getId (c.add p0).items p0.getId = some p0 := by
  unfold Carrito.add
  split
  · rename_i htrue
    rw [h] at htrue
    cases htrue
  · rw [mapSet_of_not_mem (mapHas_eq_false_iff.mp h)]
    exact mapGet_append_singleton_of_not_mem (mapHas_eq_false_iff.mp h) rfl

theorem add_get_present {c : Carrito} {X : String} {p : Producto}
    (hget : mapGet Producto.getId c.items X = some p) {q : Producto}
    (hq : q.getId = X) :
    mapGet Producto.getId (c.add q).items X
      = some { p with cantidad := p.cantidad + 1 } := by
  have hhas : mapHas Producto.getId c.items q.getId = true := by
    rw [hq]
    unfold mapHas
    rw [hget]
    rfl
  unfold Carrito.add
  split
  · rw [hq, mapGet_mapModify_self Producto.getId
      (fun p : Producto => { p with cantidad := p.cantidad + 1 }) (fun a => rfl), hget]
    rfl
  · rename_i hfalse
    rw [hhas] at hfalse
    simp at hfalse

/-- A sequence of `add` calls folded over the cart. -/
def addAll (c : Carrito) (ps : List Producto) : Carrito :=
  ps.foldl Carrito.add c

theorem addAll_get_same_id {X : String} (ps : List Producto)
    (hps : ∀ q ∈ ps, q.getId = X) {c : Carrito} {p : Producto}
    (hget : mapGet Producto.getId c.items X = some p) :
    mapGet Producto.getId (addAll c ps).items X
      = some { p with cantidad := p.cantidad + ps.length } := by
  induction ps generalizing c p with
  | nil =>
    simp only [addAll, List.foldl_nil, List.length_nil, Nat.cast_zero, add_zero]
    rw [hget]
  | cons q rest ih =>
    have h1 : mapGet Producto.getId (c.add q).items X
        = some { p with cantidad := p.cantidad + 1 } :=
      add_get_present hget (hps q (List.mem_cons_self _ _))
    have h2 := ih (fun r hr => hps r (List.mem_cons_of_mem _ hr)) h1
    simp only [addAll, List.foldl_cons] at h2 ⊢
    rw [h2]
    congr 2
    simp only [List.length_cons]
    push_cast
    ring

theorem updateQty_absent {c : Carrito} {id : String}
    (h : mapHas Producto.getId c.items id = false) (q : Rat) :
    c.updateQty id q = c := by
  unfold Carrito.updateQty
  rw [if_pos h]

theorem updateQty_present_nonpos {c : Carrito} {id : String}
    (h : mapHas Producto.getId c.items id = true) {q : Rat} (hq : q ≤ 0) :
    c.updateQty id q = c.remove id := by
  unfold Carrito.updateQty Carrito.remove
  rw [if_neg (by simp [h]), if_pos hq,
    mapDelete_mapModify Producto.getId (fun p : Producto => { p with cantidad := q })
      (fun a => rfl)]

theorem updateQty_present_pos {c : Carrito} {id : String}
    (h : mapHas Producto.getId c.items id = true) {q : Rat} (hq : ¬ q ≤ 0) :
    (c.updateQty id q).items
      = mapModify Producto.getId (fun p : Producto => { p with cantidad := q })
          c.items id := by
  unfold Carrito.updateQty
  rw [if_neg (by simp [h]), if_neg hq]

theorem sum_cantidad_mapDelete {items : List Producto} {k : String} {p : Producto}
    (hget : mapGet Producto.getId items k = some p) :
    ((mapDelete Producto.getId items k).map fun q => q.cantidad).sum
      = (items.map fun q => q.cantidad).sum - p.cantidad := by
  induction items with
  | nil => simp [mapGet] at hget
  | cons a rest ih =>
    simp only [mapGet] at hget
    by_cases hk : Producto.getId a = k
    · rw [if_pos hk] at hget
      cases hget
      simp only [mapDelete, if_pos hk, List.map_cons, List.sum_cons]
      ring
    · rw [if_neg hk] at hget
      simp only [mapDelete, if_neg hk, List.map_cons, List.sum_cons, ih hget]
      ring

theorem load_fold_append (ps : List Producto) (init : List Producto)
    (h : ((init.map Producto.getId) ++ (ps.map Producto.getId)).Nodup) :
    (ps.map Producto.toRecord).foldl
        (fun items o => mapSet Producto.getId items o.id o.toProducto) init
      = init ++ ps := by
  induction ps generalizing init with
  | nil => simp
  | cons p rest ih =>
    simp only [List.map_cons, List.foldl_cons]
    have hid : (Producto.toRecord p).id = p.getId := rfl
    have hnotmem : p.getId ∉ init.map Producto.getId := by
      intro hmem
      simp only [List.map_cons, List.nodup_append, List.nodup_cons] at h
      exact h.2.2 hmem (List.mem_cons_self _ _)
    rw [hid, toRecord_toProducto, mapSet_of_not_mem hnotmem]
    rw [ih (init ++ [p])]
    · simp
    · simp only [List.map_append, List.map_cons, List.map_nil] at h ⊢
      have : (init.map Producto.getId ++ [p.getId])
            ++ rest.map Producto.getId
          = init.map Producto.getId ++ (p.getId :: rest.map Producto.getId) := by
        simp
      rw [this]
      exact h

/-! ## Comma behaviour of the price parse -/

theorem takeWhile_append_comma (p : Char → Bool) (hp : p ',' = false)
    (xs ys : List Char) :
    (xs ++ ',' :: ys).takeWhile p = xs.takeWhile p := by
  induction xs with
  | nil => simp [List.takeWhile_cons, hp]
  | cons c rest ih =>
    simp only [List.cons_append, List.takeWhile_cons]
    cases hc : p c
    · simp
    · simp [ih]

theorem dropWhile_append_comma (p : Char → Bool) (hp : p ',' = false)
    (xs ys : List Char) :
    (xs ++ ',' :: ys).dropWhile p = xs.dropWhile p ++ ',' :: ys := by
  induction xs with
  | nil => simp [List.dropWhile_cons, hp]
  | cons c rest ih =>
    simp only [List.cons_append, List.dropWhile_cons]
    cases hc : p c
    · simp
    · simp [ih]

theorem parseFloatFrac_append_comma (d ys : List Char) :
    parseFloatFrac (d ++ ',' :: ys) = parseFloatFrac d := by
  cases d with
  | nil => rfl
  | cons c r =>
    simp only [List.cons_append, parseFloatFrac]
    by_cases hc : c = '.'
    · rw [if_pos hc, if_pos hc, takeWhile_append_comma _ (by decide)]
    · rw [if_neg hc, if_neg hc]

theorem parseFloatJS_comma (xs ys : List Char) :
    parseFloatJS (xs ++ ',' :: ys) = parseFloatJS xs := by
  unfold parseFloatJS
  rw [takeWhile_append_comma _ (by decide), dropWhile_append_comma _ (by decide),
    parseFloatFrac_append_comma]

theorem replaceFirstComma_append (xs ys : List Char) (h : ',' ∉ xs) :
    replaceFirstComma (xs ++ ',' :: ys) = xs ++ '.' :: ys := by
  induction xs with
  | nil => simp [replaceFirstComma]
  | cons c rest ih =>
    simp only [List.mem_cons, not_or] at h
    simp only [List.cons_append, replaceFirstComma]
    have hne : ¬ ((c == ',') = true) := by
      simp only [beq_iff_eq]
      exact fun hc => h.1 hc.symm
    rw [if_neg hne]
    exact congrArg (List.cons c) (ih h.2)

/-! ## Claim theorems -/

set_option maxRecDepth 8000

/-- C1: Hydrating the persisted blob
`[{"id":"p2","nombre":"Torta","precio":300,"categoria":"general","cantidad":2}]`
(the spec names the record fields in English: name/price/category/quantity
for the code's nombre/precio/categoria/cantidad) into a fresh cart yields
`getTotal() = 600`. -/
theorem C1_hydrate_torta_total :
    (Carrito.loadFromStorage ⟨[]⟩
        (some [⟨"p2", "Torta", 300, "general", 2⟩])).getTotal = 600 := by
  with_unfolding_all decide

/-- C2: In every reachable cart state — the cart starts empty, products
are added freshly constructed (`new Producto`, `cantidad = 1`),
`updateQty` receives integer quantities (the spec's data model types
`quantity` as an integer), and hydration reads a payload `saveToStorage`
wrote for a reachable cart — every entry has `cantidad ≥ 1`; moreover an
update driving a quantity to ≤ 0 removes the entry instead of storing a
zero or negative quantity: afterwards no entry with that id exists and
every remaining quantity is still ≥ 1. -/
theorem C2_quantity_invariant {c : Carrito} (h : Reachable c) :
    (∀ p ∈ c.items, 1 ≤ p.cantidad) ∧
      ∀ (id : String) (q : Rat), q ≤ 0 →
        mapGet Producto.getId (c.updateQty id q).items id = none ∧
          ∀ p ∈ (c.updateQty id q).items, 1 ≤ p.cantidad := by
  obtain ⟨hQ, hN⟩ := reachable_cartWf h
  refine ⟨fun p hp => (hQ p hp).one_le, ?_⟩
  intro id q hq
  by_cases hhas : mapHas Producto.getId c.items id = true
  · rw [updateQty_present_nonpos hhas hq]
    simp only [Carrito.remove]
    constructor
    · exact mapGet_mapDelete_self hN
    · intro p hp
      exact (hQ p (mem_mapDelete hp)).one_le
  · have hfalse : mapHas Producto.getId c.items id = false := by
      revert hhas
      cases mapHas Producto.getId c.items id <;> simp
    rw [updateQty_absent hfalse]
    constructor
    · exact mapGet_eq_none_of_not_mem (mapHas_eq_false_iff.mp hfalse)
    · intro p hp
      exact (hQ p hp).one_le

/-- Witness for C2: the reachable cart holding one freshly added product,
probed with an update to quantity 0. -/
theorem C2_quantity_invariant_witness :
    (∀ p ∈ ((⟨[]⟩ : Carrito).add (Producto.new "p1" "Cupcake" 5 "general")).items,
        1 ≤ p.cantidad) ∧
      mapGet Producto.getId
          (((⟨[]⟩ : Carrito).add (Producto.new "p1" "Cupcake" 5 "general")).updateQty
            "p1" 0).items "p1" = none :=
  ⟨(C2_quantity_invariant
      (Reachable.add ⟨[]⟩ "p1" "Cupcake" 5 "general" Reachable.init)).1,
   ((C2_quantity_invariant
      (Reachable.add ⟨[]⟩ "p1" "Cupcake" 5 "general" Reachable.init)).2 "p1" 0
      (le_refl 0)).1⟩

/-- C3: Starting from a cart without id `X`, a sequence of `n ≥ 1` `add`
calls of freshly constructed products all carrying id `X` leaves the entry
for `X` with `cantidad = n` (here `n = 1 + rest.length`) and with the
`nombre`, `precio` and `categoria` of the FIRST add; the later adds' other
fields are discarded. -/
theorem C3_repeated_add_merge (c : Carrito) (X nombre0 : String) (precio0 : Rat)
    (categoria0 : String) (rest : List (String × Rat × String))
    (hX : mapHas Producto.getId c.items X = false) :
    mapGet Producto.getId
        (addAll c (Producto.new X nombre0 precio0 categoria0 ::
          rest.map fun a => Producto.new X a.1 a.2.1 a.2.2)).items X
      = some ⟨X, nombre0, precio0, categoria0, 1 + rest.length⟩ := by
  have h0 : mapGet Producto.getId
      (c.add (Producto.new X nombre0 precio0 categoria0)).items X
        = some (Producto.new X nombre0 precio0 categoria0) := add_get_absent hX
  have h2 := addAll_get_same_id (rest.map fun a => Producto.new X a.1 a.2.1 a.2.2)
    (by
      intro q hq
      simp only [List.mem_map] at hq
      rcases hq with ⟨a, _, he⟩
      subst he
      rfl) h0
  simp only [addAll, List.foldl_cons] at h2 ⊢
  rw [h2]
  simp only [List.length_map]
  rfl

/-- Witness for C3: two adds of id `p1` onto the empty cart — quantity 2,
first add's fields kept. -/
theorem C3_repeated_add_merge_witness :
    mapGet Producto.getId
        (addAll ⟨[]⟩ (Producto.new "p1" "Cupcake" 5 "general" ::
          [("Otro", (7 : Rat), "x")].map fun a => Producto.new "p1" a.1 a.2.1 a.2.2)).items
        "p1"
      = some ⟨"p1", "Cupcake", 5, "general",
          1 + List.length [("Otro", (7 : Rat), "x")]⟩ :=
  C3_repeated_add_merge ⟨[]⟩ "p1" "Cupcake" 5 "general" [("Otro", 7, "x")] rfl

/-- C4: `updateQty(id, qty)` is a no-op when `id` is absent; when `id` is
present and `qty ≤ 0` it removes the entry entirely (the result is exactly
`remove(id)`, the entry is gone, and `getCount` drops its quantity); when
`id` is present and `qty > 0` it stores exactly `qty` in that entry. -/
theorem C4_updateQty_cases (c : Carrito) (id : String) (q : Rat)
    (hN : (c.items.map Producto.getId).Nodup) :
    (mapHas Producto.getId c.items id = false → c.updateQty id q = c) ∧
      (∀ p, mapGet Producto.getId c.items id = some p → q ≤ 0 →
        c.updateQty id q = c.remove id ∧
          mapGet Producto.getId (c.updateQty id q).items id = none ∧
          (c.updateQty id q).getCount = c.getCount - p.cantidad) ∧
      ∀ p, mapGet Producto.getId c.items id = some p → 0 < q →
        mapGet Producto.getId (c.updateQty id q).items id
          = some { p with cantidad := q } := by
  refine ⟨fun h => updateQty_absent h q, ?_, ?_⟩
  · intro p hget hq
    have hhas : mapHas Producto.getId c.items id = true := by
      unfold mapHas
      rw [hget]
      rfl
    have he := updateQty_present_nonpos hhas hq
    refine ⟨he, ?_, ?_⟩
    · rw [he]
      show mapGet Producto.getId (mapDelete Producto.getId c.items id) id = none
      exact mapGet_mapDelete_self hN
    · rw [he]
      show ((mapDelete Producto.getId c.items id).map fun r => r.cantidad).sum
          = (c.items.map fun r => r.cantidad).sum - p.cantidad
      exact sum_cantidad_mapDelete hget
  · intro p hget hq
    have hhas : mapHas Producto.getId c.items id = true := by
      unfold mapHas
      rw [hget]
      rfl
    rw [updateQty_present_pos hhas (not_le.mpr hq),
      mapGet_mapModify_self Producto.getId (fun r : Producto => { r with cantidad := q })
        (fun a => rfl), hget]
    rfl

/-- Witness for C4: a two-entry cart probed with an absent id, a removal
via quantity 0, and a quantity update to 7. -/
theorem C4_updateQty_cases_witness :
    Carrito.updateQty ⟨[⟨"a", "A", 2, "g", 1⟩, ⟨"b", "B", 3, "g", 2⟩]⟩ "z" 5
        = ⟨[⟨"a", "A", 2, "g", 1⟩, ⟨"b", "B", 3, "g", 2⟩]⟩ ∧
      mapGet Producto.getId
          (Carrito.updateQty ⟨[⟨"a", "A", 2, "g", 1⟩, ⟨"b", "B", 3, "g", 2⟩]⟩
            "a" 0).items "a" = none ∧
      mapGet Producto.getId
          (Carrito.updateQty ⟨[⟨"a", "A", 2, "g", 1⟩, ⟨"b", "B", 3, "g", 2⟩]⟩
            "b" 7).items "b" = some ⟨"b", "B", 3, "g", 7⟩ :=
  ⟨(C4_updateQty_cases ⟨[⟨"a", "A", 2, "g", 1⟩, ⟨"b", "B", 3, "g", 2⟩]⟩ "z" 5
      (by decide)).1 rfl,
   ((C4_updateQty_cases ⟨[⟨"a", "A", 2, "g", 1⟩, ⟨"b", "B", 3, "g", 2⟩]⟩ "a" 0
      (by decide)).2.1 ⟨"a", "A", 2, "g", 1⟩ rfl (le_refl 0)).2.1,
   (C4_updateQty_cases ⟨[⟨"a", "A", 2, "g", 1⟩, ⟨"b", "B", 3, "g", 2⟩]⟩ "b" 7
      (by decide)).2.2 ⟨"b", "B", 3, "g", 2⟩ rfl
      (by with_unfolding_all decide)⟩

/-- C5: Round-trip — serialising a cart (ids unique, as the backing `Map`
guarantees) and hydrating the persisted array into a fresh cart reproduces
the same entries: same ids with the same `nombre`, `precio`, `categoria`
and `cantidad`, in order. -/
theorem C5_persistence_roundtrip (c : Carrito)
    (hN : (c.items.map Producto.getId).Nodup) :
    Carrito.loadFromStorage ⟨[]⟩ (some c.serialize) = c := by
  have h := load_fold_append c.items [] (by simpa using hN)
  show Carrito.mk ((c.items.map Producto.toRecord).foldl
      (fun items o => mapSet Producto.getId items o.id o.toProducto) []) = c
  rw [h, List.nil_append]

/-- Witness for C5: round-trip of a concrete two-entry cart. -/
theorem C5_persistence_roundtrip_witness :
    Carrito.loadFromStorage ⟨[]⟩
        (some (Carrito.serialize ⟨[⟨"a", "A", 2, "g", 1⟩, ⟨"b", "B", 3, "g", 2⟩]⟩))
      = ⟨[⟨"a", "A", 2, "g", 1⟩, ⟨"b", "B", 3, "g", 2⟩]⟩ :=
  C5_persistence_roundtrip ⟨[⟨"a", "A", 2, "g", 1⟩, ⟨"b", "B", 3, "g", 2⟩]⟩ (by decide)

/-- The corrupt payload for the C6 counterexample: well-formed JSON —
`[{"id":"p1","nombre":"Cupcake","precio":5,"categoria":"general",
"cantidad":1}, null]` — that is not an array of cart-entry records,
because of the trailing `null`. -/
def corruptPayload : StoredRaw :=
  .parsed (.jarr
    [.jobj [("id", .jstr "p1"), ("nombre", .jstr "Cupcake"), ("precio", .jnum 5),
       ("categoria", .jstr "general"), ("cantidad", .jnum 1)],
     .jnull])

/-- C6 counterexample: hydrating `corruptPayload` — a persisted payload
that is NOT well-formed JSON for an array of cart-entry records — into a
fresh cart does not yield an empty cart, contrary to the claim: the loop
inserts the first (well-formed) record and only then throws on `null.id`;
the `catch` keeps what was already inserted, so one entry survives. -/
theorem C6_corrupt_payload_not_empty :
    (CarritoD.loadFromStorage ⟨[]⟩ corruptPayload).items ≠ [] := by
  intro h
  have hlen := congrArg List.length h
  rw [show (CarritoD.loadFromStorage ⟨[]⟩ corruptPayload).items.length = 1 from rfl]
    at hlen
  simp at hlen

/-- C6 amended: an absent key or a payload on which `JSON.parse` throws
hydrates to an empty cart, and so does a payload that parses to a
non-iterable value; no failure escapes `loadFromStorage` (the model is a
total function).  The original claim fails only for payloads that parse to
an iterable with a malformed element: entries built before the element
whose field access throws are kept (see the counterexample). -/
theorem C6_safe_hydration_amended :
    CarritoD.loadFromStorage ⟨[]⟩ .absent = ⟨[]⟩ ∧
      CarritoD.loadFromStorage ⟨[]⟩ .malformed = ⟨[]⟩ ∧
      ∀ v : JVal, v.iterate = none →
        CarritoD.loadFromStorage ⟨[]⟩ (.parsed v) = ⟨[]⟩ := by
  refine ⟨rfl, rfl, ?_⟩
  intro v hv
  show (match v.iterate with
    | none => (⟨[]⟩ : CarritoD)
    | some os => ⟨hydrateLoop [] os⟩) = (⟨[]⟩ : CarritoD)
  rw [hv]

/-- Witness for C6 (amended): a payload parsing to a plain (non-iterable)
object hydrates to the empty cart. -/
theorem C6_safe_hydration_amended_witness :
    CarritoD.loadFromStorage ⟨[]⟩ (.parsed (.jobj [])) = ⟨[]⟩ :=
  C6_safe_hydration_amended.2.2 (.jobj []) rfl

/-- C7: `parsePrice` never fails — the model is a total function returning
a number for every input: 0 for `null`/`undefined`, 0 for the empty
string, 0 whenever the cleaned text (digits, dots, commas only, first
comma turned into a dot) does not parse as a float, and otherwise exactly
the float value of that cleaned text. -/
theorem C7_parsePrice_total_safe :
    parsePrice none = 0 ∧
      parsePrice (some "") = 0 ∧
      (∀ s : String,
        parseFloatJS (replaceFirstComma (s.data.filter isPriceChar)) = none →
          parsePrice (some s) = 0) ∧
      ∀ (s : String) (q : Rat),
        parseFloatJS (replaceFirstComma (s.data.filter isPriceChar)) = some q →
          parsePrice (some s) = q := by
  refine ⟨rfl, rfl, ?_, ?_⟩
  · intro s hs
    simp only [parsePrice]
    split
    · rfl
    · rw [hs]
  · intro s q hs
    simp only [parsePrice]
    split
    · rename_i hse
      rw [hse] at hs
      rw [show parseFloatJS (replaceFirstComma (("" : String).data.filter isPriceChar))
          = none from rfl] at hs
      cases hs
    · rw [hs]

/-- Witness for C7: an unparseable label degrades to 0, a well-formed
price label parses to its value. -/
theorem C7_parsePrice_total_safe_witness :
    parsePrice (some "abc") = 0 ∧ parsePrice (some "S/ 5.00") = 5 :=
  ⟨C7_parsePrice_total_safe.2.2.1 "abc" rfl,
   C7_parsePrice_total_safe.2.2.2 "S/ 5.00" 5 (by with_unfolding_all decide)⟩

/-- C9: only the first comma of the cleaned text becomes a decimal point:
any comma after a comma-free prefix is the one replaced, commas further
right are left in place, and a remaining comma terminates the numeric
parse (`parseFloat` ignores everything from the first non-float
character); concretely `parsePrice("1,2,3") = 1.2 = 6/5`. -/
theorem C9_first_comma_only :
    parsePrice (some "1,2,3") = 6 / 5 ∧
      (∀ xs ys : List Char, ',' ∉ xs →
        replaceFirstComma (xs ++ ',' :: ys) = xs ++ '.' :: ys) ∧
      ∀ xs ys : List Char, parseFloatJS (xs ++ ',' :: ys) = parseFloatJS xs :=
  ⟨by with_unfolding_all decide,
   fun xs ys h => replaceFirstComma_append xs ys h,
   fun xs ys => parseFloatJS_comma xs ys⟩

/-- Witness for C9: in `1,3` the first comma becomes a dot and the suffix
is untouched. -/
theorem C9_first_comma_only_witness :
    replaceFirstComma (['1'] ++ ',' :: ['3']) = ['1'] ++ '.' :: ['3'] :=
  C9_first_comma_only.2.1 ['1'] ['3'] (by decide)

/-- C10: `updateQty` with a positive quantity stores exactly the given
number — no rounding or integrality check, non-integer values included —so
`getCount`, the sum of quantities, can return a non-integer: updating the
single entry of a concrete cart to quantity 5/2 makes `getCount` equal
5/2, which is equal to no integer. -/
theorem C10_fractional_quantity (c : Carrito) (id : String) (q : Rat) (p : Producto)
    (hget : mapGet Producto.getId c.items id = some p) (hq : 0 < q) :
    mapGet Producto.getId (c.updateQty id q).items id = some { p with cantidad := q } ∧
      (Carrito.updateQty ⟨[Producto.new "p1" "A" 10 "general"]⟩ "p1" (5 / 2)).getCount
        = 5 / 2 ∧
      ∀ n : Int,
        (Carrito.updateQty ⟨[Producto.new "p1" "A" 10 "general"]⟩ "p1"
          (5 / 2)).getCount ≠ (n : Rat) := by
  refine ⟨?_, by with_unfolding_all decide, ?_⟩
  · have hhas : mapHas Producto.getId c.items id = true := by
      unfold mapHas
      rw [hget]
      rfl
    rw [updateQty_present_pos hhas (not_le.mpr hq),
      mapGet_mapModify_self Producto.getId (fun r : Producto => { r with cantidad := q })
        (fun a => rfl), hget]
    rfl
  · intro n hn
    rw [show (Carrito.updateQty ⟨[Producto.new "p1" "A" 10 "general"]⟩ "p1"
        (5 / 2)).getCount = 5 / 2 from by with_unfolding_all decide] at hn
    have hd := congrArg Rat.den hn
    rw [Rat.den_intCast] at hd
    rw [show ((5 / 2 : Rat)).den = 2 from by with_unfolding_all decide] at hd
    exact absurd hd (by decide)

/-- Witness for C10: the quantity 5/2 is stored verbatim. -/
theorem C10_fractional_quantity_witness :
    mapGet Producto.getId
        ((⟨[Producto.new "p1" "A" 10 "general"]⟩ : Carrito).updateQty
          "p1" (5 / 2)).items "p1"
      = some { Producto.new "p1" "A" 10 "general" with cantidad := 5 / 2 } :=
  (C10_fractional_quantity ⟨[Producto.new "p1" "A" 10 "general"]⟩ "p1" (5 / 2)
    (Producto.new "p1" "A" 10 "general") rfl (by with_unfolding_all decide)).1

/-- C8: For each of the four mutations (`add`, `remove`, `updateQty`,
`clear`), the in-memory cart after the operation is the completed mutation
regardless of whether the storage write succeeds; a failed write (the
exception `saveToStorage` catches and logs) leaves the previously stored
payload untouched, while a successful write stores the serialisation of
the already-mutated cart.  The model is a total function, so no exception
reaches the caller. -/
theorem C8_storage_failure_isolated (s : AppState) (op : CartOp) :
    (runOp s op false).carrito = applyOp s.carrito op ∧
      (runOp s op true).carrito = applyOp s.carrito op ∧
      (runOp s op false).storage = s.storage ∧
      (runOp s op true).storage = some (applyOp s.carrito op).serialize :=
  ⟨rfl, rfl, rfl, rfl⟩
